import Mathlib

/-!
Verification of the CloudCostCalaCLI pipeline (Go) against its specification.

The Go sources are embedded shallowly:
* Go `map[string]V` values are modelled as association lists `StrMap V`
  (`List (String × V)`) with unique keys; `mset` is Go map assignment and
  `mget` is Go map lookup.  A Go map has no observable order, so any
  permutation of a `StrMap` represents the same map; theorems about
  iteration-order-sensitive code quantify over such permutations.
* Go `float64` arithmetic is modelled over `ℚ`; `math.Round`
  (round half away from zero) is `roundHalfAway`.
* Go `int` is modelled as `ℤ`.
* Go strings are modelled as Lean strings (character sequences; the inputs
  involved are ASCII, where Go's byte indexing and character indexing agree).
-/

namespace CloudCostCala

/-- Association-list model of a Go `map[string]V`. -/
abbrev StrMap (V : Type) : Type := List (String × V)

/-- Go map lookup `m[k]` (the `(value, ok)` form): `some v` when the key is
present, `none` otherwise. -/
def mget {V : Type} : StrMap V → String → Option V
  | [], _ => none
  | (k', v) :: rest, k => if k = k' then some v else mget rest k

/-- Go map lookup `m[k]` in value position: the zero value `d` when the key
is absent. -/
def mgetD {V : Type} (m : StrMap V) (k : String) (d : V) : V :=
  (mget m k).getD d

/-- Go map assignment `m[k] = v`: update in place when the key is present,
append otherwise. -/
def mset {V : Type} : StrMap V → String → V → StrMap V
  | [], k, v => [(k, v)]
  | (k', v') :: rest, k, v =>
      if k = k' then (k, v) :: rest else (k', v') :: mset rest k v

/-- The keys of a map representation. -/
def mkeys {V : Type} (m : StrMap V) : List String :=
  m.map Prod.fst

/-- A well-formed Go map representation: no key twice. -/
abbrev NodupKeys {V : Type} (m : StrMap V) : Prop :=
  (mkeys m).Nodup

/-- Apply a function to every value of a map, keys untouched (the shape of a
Go loop `for k := range m { m[k] = f(m[k]) }`, which visits each key once). -/
def mapValues {V W : Type} (f : V → W) (m : StrMap V) : StrMap W :=
  m.map (fun p => (p.1, f p.2))

/-! ## internal/models (asset.go): the data model -/

/-- Go struct `models.BillingRecord` (the `Metadata` map, always empty and
never read, is modelled as an association list). -/
structure BillingRecord where
  ServiceName : String
  ResourceType : String
  ResourceID : String
  InstanceHours : ℚ
  TimePeriod : String
  Region : String
  Project : String
  Metadata : List (String × String)
  deriving Repr, DecidableEq

/-- Go struct `models.Asset` (the `Metadata` field, never read by the
pipeline, is omitted). -/
structure Asset where
  ID : String
  «Type» : String
  Name : String
  Cloud : String
  Project : String
  CurrentInstanceCount : ℤ
  SourceType : String
  deriving Repr, DecidableEq

/-- Go struct `models.EnrichedAsset`. -/
structure EnrichedAsset where
  AssetType : String
  CurrentlyDeployed : ℤ
  AverageInstancesPerHr : ℚ
  HasEphemeralUsage : Bool
  CalculatedUnits : ℤ
  deriving Repr, DecidableEq

/-- Go struct `models.AggregatedOutput`. -/
structure AggregatedOutput where
  AssetType : String
  CurrentCount : ℤ
  EphemeralCount : ℤ
  AvgInstancesPerHour : ℚ
  SyntheticUnits : ℤ
  deriving Repr, DecidableEq

/-! ## internal/config (config.go): configuration structures -/

/-- Go struct `config.SyntheticUnitRule`. -/
structure SyntheticUnitRule where
  UnitsPerInstance : ℤ
  deriving Repr, DecidableEq

/-- Go struct `config.SyntheticUnitsConfig`. -/
structure SyntheticUnitsConfig where
  Rules : StrMap SyntheticUnitRule
  deriving Repr, DecidableEq

/-! ## internal/billing/normalizer.go -/

/-- Go `getDaysInPeriod` (normalizer.go): number of days in a `YYYY-MM`
month, defaulting to 30 when the string is shorter than 7; the month is read
from `period[5:7]` and matched against a fixed table with February fixed at
28 days. -/
def getDaysInPeriod (period : String) : ℕ :=
  if period.length < 7 then 30
  else
    let month := String.mk ((period.data.drop 5).take 2)
    if month = "01" ∨ month = "03" ∨ month = "05" ∨ month = "07" ∨
       month = "08" ∨ month = "10" ∨ month = "12" then 31
    else if month = "04" ∨ month = "06" ∨ month = "09" ∨ month = "11" then 30
    else if month = "02" then 28
    else 30

/-- The first loop of Go `NormalizeToInstanceHours`: sum instance-hours by
resource type into a map, scanning the record slice in order. -/
def sumByType (records : List BillingRecord) : StrMap ℚ :=
  records.foldl
    (fun m r => mset m r.ResourceType (mgetD m r.ResourceType 0 + r.InstanceHours))
    []

/-- Go `NormalizeToInstanceHours` (normalizer.go): sum instance-hours per
resource type, then divide every total by `daysInPeriod * 24` (the second
loop touches each key once, so it is value-wise division). -/
def NormalizeToInstanceHours (records : List BillingRecord) (billingPeriod : String) :
    StrMap ℚ :=
  let hoursInPeriod : ℚ := (getDaysInPeriod billingPeriod : ℚ) * 24
  mapValues (fun total => total / hoursInPeriod) (sumByType records)

/-- Go `GetBillingPeriod` (normalizer.go): period of the first record,
defaulting to `"2024-01"`. -/
def GetBillingPeriod (records : List BillingRecord) : String :=
  match records with
  | [] => "2024-01"
  | r :: _ => r.TimePeriod

/-! ## internal/assets/converter.go: synthetic unit conversion -/

/-- Go `math.Round`: round to nearest integer, half away from zero. -/
def roundHalfAway (q : ℚ) : ℤ :=
  if 0 ≤ q then ⌊q + 1/2⌋ else ⌈q - 1/2⌉

/-- Go `ConvertToSyntheticUnits` (converter.go): look the asset type up in
the rule table; absent types score 0, present types score
`round(avg * unitsPerInstance)`. -/
def ConvertToSyntheticUnits (assetType : String) (avgInstancesPerHour : ℚ)
    (rules : SyntheticUnitsConfig) : ℤ :=
  match mget rules.Rules assetType with
  | none => 0
  | some rule => roundHalfAway (avgInstancesPerHour * (rule.UnitsPerInstance : ℚ))

/-! ## internal/assets/enrichment.go -/

/-- The first loop of Go `EnrichAssets`: group assets by type, counting. -/
def countByType (assets : List Asset) : StrMap ℤ :=
  assets.foldl (fun m a => mset m a.«Type» (mgetD m a.«Type» 0 + 1)) []

/-- One step of Go `mergeKeysStr`: append the key to the result unless it was
seen before (the Go code keeps a `keys` set in sync with `result`, so
membership in the result is the seen-check). -/
def addKeyIfNew (acc : List String) (k : String) : List String :=
  if k ∈ acc then acc else acc ++ [k]

/-- Go `mergeKeysStr` (enrichment.go): the distinct keys of the two maps,
first occurrence first, scanning `m1` then `m2`. -/
def mergeKeysStr (m1 : StrMap ℤ) (m2 : StrMap ℚ) : List String :=
  (mkeys m1 ++ mkeys m2).foldl addKeyIfNew []

/-- The loop body of Go `EnrichAssets`: the row built for one merged key,
reading the count and the average with Go's zero-value map access;
`ephemeral = average > 0 AND count == 0`. -/
def enrichRow (assetsByType : StrMap ℤ) (avgInstancesByType : StrMap ℚ)
    (rules : SyntheticUnitsConfig) (assetType : String) : EnrichedAsset :=
  let currentCount := mgetD assetsByType assetType 0
  let avgInstances := mgetD avgInstancesByType assetType 0
  { AssetType := assetType
    CurrentlyDeployed := currentCount
    AverageInstancesPerHr := avgInstances
    HasEphemeralUsage := decide (0 < avgInstances) && decide (currentCount = 0)
    CalculatedUnits := ConvertToSyntheticUnits assetType avgInstances rules }

/-- Go `EnrichAssets` (enrichment.go): one `EnrichedAsset` per merged key. -/
def EnrichAssets (assets : List Asset) (avgInstancesByType : StrMap ℚ)
    (rules : SyntheticUnitsConfig) : List EnrichedAsset :=
  let assetsByType := countByType assets
  (mergeKeysStr assetsByType avgInstancesByType).map
    (enrichRow assetsByType avgInstancesByType rules)

/-- Go `AggregateForOutput` (enrichment.go). -/
def AggregateForOutput (enriched : List EnrichedAsset) : List AggregatedOutput :=
  enriched.map (fun e =>
    { AssetType := e.AssetType
      CurrentCount := e.CurrentlyDeployed
      EphemeralCount := if e.HasEphemeralUsage then 1 else 0
      AvgInstancesPerHour := e.AverageInstancesPerHr
      SyntheticUnits := e.CalculatedUnits })

/-! ## internal/billing/parser.go -/

/-- Go `strings.ToLower` on the ASCII strings this program handles. -/
def toLowerStr (s : String) : String :=
  String.mk (s.data.map Char.toLower)

/-- Whether `pat` is a leading segment of `cs`. -/
def hasPrefixCL : List Char → List Char → Bool
  | [], _ => true
  | _ :: _, [] => false
  | p :: ps, c :: cs => p = c && hasPrefixCL ps cs

/-- Whether `pat` occurs as a contiguous segment of the second list. -/
def containsCL (pat : List Char) : List Char → Bool
  | [] => pat.isEmpty
  | c :: t => hasPrefixCL pat (c :: t) || containsCL pat t

/-- Go `strings.Contains`. -/
def strContains (s pat : String) : Bool :=
  containsCL pat.data s.data

/-- Go `mapAWSServiceToType` (parser.go): case-insensitive keyword match
against the fixed AWS keyword list, defaulting to `"Other"`. -/
def mapAWSServiceToType (service : String) : String :=
  let s := toLowerStr service
  if strContains s "ec2" then "VM"
  else if strContains s "rds" then "Database"
  else if strContains s "lambda" then "Function"
  else if strContains s "ecs" then "Container"
  else if strContains s "s3" then "Storage"
  else "Other"

/-- Value of an all-digit character list read in base 10. -/
def digitsToNat (cs : List Char) : ℕ :=
  cs.foldl (fun n c => 10 * n + (c.toNat - 48)) 0

/-- Unsigned decimal literal: `digits`, `digits.digits`, `.digits` or
`digits.`, with at least one digit in total. -/
def parseUnsignedDec (cs : List Char) : Option ℚ :=
  let intPart := cs.takeWhile (fun c => c ≠ '.')
  match cs.dropWhile (fun c => c ≠ '.') with
  | [] =>
      if intPart ≠ [] ∧ intPart.all Char.isDigit then
        some (digitsToNat intPart : ℚ)
      else none
  | _ :: frac =>
      if (intPart ≠ [] ∨ frac ≠ []) ∧ intPart.all Char.isDigit ∧
         frac.all Char.isDigit then
        some ((digitsToNat intPart : ℚ) + (digitsToNat frac : ℚ) / (10 ^ frac.length))
      else none

/-- The Go standard library `strconv.ParseFloat`, modelled on the plain
decimal literals billing CSV files carry (optional sign, digits, optional
fraction; exponent and hexadecimal forms are out of the model): `some q`
exactly when the string parses. -/
def parseGoFloat (s : String) : Option ℚ :=
  match s.data with
  | '+' :: rest => parseUnsignedDec rest
  | '-' :: rest => (parseUnsignedDec rest).map Neg.neg
  | cs => parseUnsignedDec cs

/-- Go `instanceHours, _ := strconv.ParseFloat(field, 64)`: the parsed value,
or the float zero value when parsing fails. -/
def parseFloatOr0 (s : String) : ℚ :=
  (parseGoFloat s).getD 0

/-- The record built from one sufficiently wide AWS CSV row
(parser.go, loop body of `parseAWSBilling`). -/
def recordOfAWSRow (row : List String) : BillingRecord :=
  { ServiceName := row.getD 0 ""
    ResourceType := mapAWSServiceToType (row.getD 0 "")
    ResourceID := row.getD 2 ""
    InstanceHours := parseFloatOr0 (row.getD 3 "")
    TimePeriod := row.getD 4 ""
    Region := row.getD 5 ""
    Project := "aws-default"
    Metadata := [] }

/-- The row loop of Go `parseAWSBilling`: rows with fewer than six fields
are skipped with `continue`, every other row yields a record. -/
def parseRowsAWS : List (List String) → List BillingRecord
  | [] => []
  | row :: rest =>
      if row.length < 6 then parseRowsAWS rest
      else recordOfAWSRow row :: parseRowsAWS rest

/-- The post-`ReadAll` stage of Go `parseAWSBilling` (parser.go): the first
row (header) is skipped unconditionally, then the row loop runs.  This stage
is total; the error paths in front of it — `os.Open` and `csv.ReadAll`,
whose default field-count check can reject a whole file because of a short
row — are modelled by `csvReadAll` and `parseAWSBillingFile` below. -/
def parseAWSBilling (rows : List (List String)) : List BillingRecord :=
  parseRowsAWS (rows.drop 1)

/-- The Go standard library `csv.Reader.ReadAll` as used in parser.go, at
the record level: created with default settings, so `FieldsPerRecord` is 0,
the first record fixes the expected field count, and any later record with
a different count makes the whole read fail with `ErrFieldCount`
(modelled `none`). -/
def csvReadAll (rows : List (List String)) : Option (List (List String)) :=
  match rows with
  | [] => some []
  | first :: rest =>
      if rest.all (fun row => row.length == first.length) then some (first :: rest)
      else none

/-- Go `parseAWSBilling` (parser.go) from `csv.ReadAll` on: the reader's
field-count check runs first and can fail the whole file; only when it
succeeds does the header-skipping row loop run (`os.Open` failure, outside
the row data, is not modelled). -/
def parseAWSBillingFile (rows : List (List String)) : Option (List BillingRecord) :=
  match csvReadAll rows with
  | none => none
  | some records => some (parseAWSBilling records)

/-! ## cmd/cloudcostcala/main.go: the processing pipeline after parsing -/

/-- The processing stage of Go `main` (main.go): normalize the collected
billing records over the period of the first record, enrich against the
inventory (always `[]` at the call site), and aggregate for output. -/
def runPipeline (assets : List Asset) (records : List BillingRecord)
    (rules : SyntheticUnitsConfig) : List AggregatedOutput :=
  let billingPeriod := GetBillingPeriod records
  let avgInstancesByType := NormalizeToInstanceHours records billingPeriod
  AggregateForOutput (EnrichAssets assets avgInstancesByType rules)

/-! ## pkg/output/excel.go -/

/-- A value written into a spreadsheet cell: Go `SetCellValue` with a
`string` makes a text cell, with an `int` a numeric cell. -/
inductive CellVal where
  | str : String → CellVal
  | int : ℤ → CellVal
  deriving Repr, DecidableEq

/-- Go `fmt.Sprintf("%c%d", col, row)`. -/
def cellName (col : Char) (row : ℕ) : String :=
  String.mk [col] ++ toString row

/-- Left-pad to two digits. -/
def pad2 (n : ℕ) : String :=
  if n < 10 then "0" ++ toString n else toString n

/-- Go `fmt.Sprintf("%.2f", x)`: the value rendered as a decimal string
with exactly two digits after the point (exact decimal ties are rounded
away from zero here, where Go's strconv rounds them to even; which of the
two neighbouring strings is written does not matter to any statement
below, which only distinguish text cells from numeric cells). -/
def fmtTwoDec (q : ℚ) : String :=
  let n := roundHalfAway (q * 100)
  (if n < 0 then "-" else "") ++ toString (n.natAbs / 100) ++ "." ++ pad2 (n.natAbs % 100)

/-- The header writes of Go `WriteExcel` (row 1, all strings). -/
def headerCells : List (String × CellVal) :=
  [(cellName 'A' 1, CellVal.str "Asset Type"),
   (cellName 'B' 1, CellVal.str "Current Count"),
   (cellName 'C' 1, CellVal.str "Ephemeral Count"),
   (cellName 'D' 1, CellVal.str "Avg Instances/Hr"),
   (cellName 'E' 1, CellVal.str "Synthetic Units")]

/-- The five `SetCellValue` writes of one data row of Go `WriteExcel`:
columns B, C and E carry Go ints, columns A and D carry strings — D is the
average formatted with `fmt.Sprintf("%.2f", ...)`. -/
def dataRowCells (row : ℕ) (a : AggregatedOutput) : List (String × CellVal) :=
  [(cellName 'A' row, CellVal.str a.AssetType),
   (cellName 'B' row, CellVal.int a.CurrentCount),
   (cellName 'C' row, CellVal.int a.EphemeralCount),
   (cellName 'D' row, CellVal.str (fmtTwoDec a.AvgInstancesPerHour)),
   (cellName 'E' row, CellVal.int a.SyntheticUnits)]

/-- The data-row loop of Go `WriteExcel`: asset `i` is written on
spreadsheet row `i + 2`. -/
def dataCellsFrom (row : ℕ) : List AggregatedOutput → List (String × CellVal)
  | [] => []
  | a :: rest => dataRowCells row a ++ dataCellsFrom (row + 1) rest

/-- Go `fmt.Sprintf("SUM(%c2:%c%d)", col, col, lastRow)` as written in the
`SetCellFormula` calls. -/
def sumFormula (col : Char) (lastRow : ℕ) : String :=
  "SUM(" ++ String.mk [col] ++ "2:" ++ String.mk [col] ++ toString lastRow ++ ")"

/-- Every `SetCellValue` write Go `WriteExcel` performs, in program order:
header row, data rows, and (for a non-empty asset list) the `TOTAL` label.
Styling and column widths carry no cell values and are outside the model. -/
def WriteExcelCells (assets : List AggregatedOutput) : List (String × CellVal) :=
  headerCells ++ dataCellsFrom 2 assets ++
    (if 0 < assets.length then
      [(cellName 'A' (assets.length + 2), CellVal.str "TOTAL")]
    else [])

/-- Every `SetCellFormula` write Go `WriteExcel` performs: for a non-empty
asset list, one `SUM` over rows 2 to `len + 1` per numeric-looking column of
the totals row. -/
def WriteExcelFormulas (assets : List AggregatedOutput) : List (String × String) :=
  if 0 < assets.length then
    [(cellName 'B' (assets.length + 2), sumFormula 'B' (assets.length + 1)),
     (cellName 'C' (assets.length + 2), sumFormula 'C' (assets.length + 1)),
     (cellName 'D' (assets.length + 2), sumFormula 'D' (assets.length + 1)),
     (cellName 'E' (assets.length + 2), sumFormula 'E' (assets.length + 1))]
  else []

/-! ## Derived notions used by the statements -/

/-- Total instance-hours carried by the records of one resource type. -/
def totalHoursFor (records : List BillingRecord) (t : String) : ℚ :=
  ((records.filter (fun r => r.ResourceType == t)).map (fun r => r.InstanceHours)).sum

/-- A single billing record of the given type, period and instance-hours,
all other fields blank. -/
def singleRecordFor (t period : String) (hours : ℚ) : BillingRecord :=
  { ServiceName := "", ResourceType := t, ResourceID := "", InstanceHours := hours,
    TimePeriod := period, Region := "", Project := "", Metadata := [] }

/-- A concrete aggregated row used to instantiate theorems. -/
def sampleRow : AggregatedOutput :=
  { AssetType := "VM", CurrentCount := 0, EphemeralCount := 1,
    AvgInstancesPerHour := 476/100, SyntheticUnits := 24 }

/-! ## Lemmas about the map model -/

theorem mget_mset {V : Type} (m : StrMap V) (k t : String) (v : V) :
    mget (mset m k v) t = if t = k then some v else mget m t := by
  induction m with
  | nil => simp [mset, mget]
  | cons p rest ih =>
      obtain ⟨k', v'⟩ := p
      by_cases hk : k = k' <;> by_cases ht : t = k' <;> by_cases htk : t = k <;>
        simp_all [mset, mget]

theorem mem_mkeys_iff_mget {V : Type} (m : StrMap V) (t : String) :
    t ∈ mkeys m ↔ (mget m t).isSome := by
  induction m with
  | nil => simp [mkeys, mget]
  | cons p rest ih =>
      obtain ⟨k', v'⟩ := p
      by_cases ht : t = k' <;> simp_all [mkeys, mget]

theorem mget_eq_ifD {V : Type} (m : StrMap V) (t : String) (d : V) :
    mget m t = if t ∈ mkeys m then some (mgetD m t d) else none := by
  cases hm : mget m t with
  | none =>
      rw [if_neg]
      intro hmem
      rw [mem_mkeys_iff_mget, hm] at hmem
      exact Bool.noConfusion hmem
  | some v =>
      rw [if_pos]
      · simp [mgetD, hm]
      · rw [mem_mkeys_iff_mget, hm]
        rfl

theorem mem_mkeys_mset {V : Type} (m : StrMap V) (k t : String) (v : V) :
    t ∈ mkeys (mset m k v) ↔ t = k ∨ t ∈ mkeys m := by
  rw [mem_mkeys_iff_mget, mget_mset]
  by_cases ht : t = k <;> simp [ht, mem_mkeys_iff_mget]

theorem mkeys_mset {V : Type} (m : StrMap V) (k : String) (v : V) :
    mkeys (mset m k v) = if k ∈ mkeys m then mkeys m else mkeys m ++ [k] := by
  induction m with
  | nil => simp [mset, mkeys]
  | cons p rest ih =>
      obtain ⟨k', v'⟩ := p
      by_cases hk : k = k' <;> by_cases hmem : k ∈ mkeys rest <;>
        simp_all [mset, mkeys]

theorem nodupKeys_mset {V : Type} {m : StrMap V} (k : String) (v : V)
    (h : NodupKeys m) : NodupKeys (mset m k v) := by
  unfold NodupKeys at *
  rw [mkeys_mset]
  by_cases hk : k ∈ mkeys m
  · rw [if_pos hk]; exact h
  · rw [if_neg hk]
    simp [List.nodup_append, h, hk]

theorem mget_mapValues {V W : Type} (f : V → W) (m : StrMap V) (t : String) :
    mget (mapValues f m) t = (mget m t).map f := by
  induction m with
  | nil => simp [mapValues, mget]
  | cons p rest ih =>
      obtain ⟨k', v'⟩ := p
      by_cases ht : t = k' <;> simp_all [mapValues, mget]

theorem mkeys_mapValues {V W : Type} (f : V → W) (m : StrMap V) :
    mkeys (mapValues f m) = mkeys m := by
  induction m with
  | nil => rfl
  | cons p rest ih => simp_all [mapValues, mkeys]

/-! ## Lemmas about the normalizer -/

theorem totalHoursFor_cons (r : BillingRecord) (rs : List BillingRecord) (t : String) :
    totalHoursFor (r :: rs) t =
      (if r.ResourceType = t then r.InstanceHours else 0) + totalHoursFor rs t := by
  by_cases h : r.ResourceType = t <;> simp [totalHoursFor, List.filter_cons, h]

theorem mget_sumFold (records : List BillingRecord) :
    ∀ (m : StrMap ℚ) (t : String),
      mget (records.foldl
        (fun m r => mset m r.ResourceType (mgetD m r.ResourceType 0 + r.InstanceHours)) m) t =
        if t ∈ mkeys m ∨ t ∈ records.map (fun r => r.ResourceType) then
          some (mgetD m t 0 + totalHoursFor records t)
        else none := by
  induction records with
  | nil =>
      intro m t
      simp only [List.foldl_nil, List.map_nil, List.not_mem_nil, or_false]
      rw [mget_eq_ifD m t 0]
      by_cases h : t ∈ mkeys m <;> simp [h, totalHoursFor]
  | cons r rs ih =>
      intro m t
      rw [List.foldl_cons, ih]
      by_cases ht : t = r.ResourceType
      · subst ht
        have hmem1 : r.ResourceType ∈
            mkeys (mset m r.ResourceType (mgetD m r.ResourceType 0 + r.InstanceHours)) ∨
            r.ResourceType ∈ rs.map (fun r => r.ResourceType) := by
          left
          rw [mem_mkeys_mset]
          exact Or.inl rfl
        have hmem2 : r.ResourceType ∈ mkeys m ∨
            r.ResourceType ∈ (r :: rs).map (fun r => r.ResourceType) := by
          right
          simp
        have hval : mgetD (mset m r.ResourceType (mgetD m r.ResourceType 0 + r.InstanceHours))
            r.ResourceType 0 = mgetD m r.ResourceType 0 + r.InstanceHours := by
          simp [mgetD, mget_mset]
        have hif : (if r.ResourceType = r.ResourceType then r.InstanceHours else 0)
            = r.InstanceHours := if_pos rfl
        rw [if_pos hmem1, if_pos hmem2, totalHoursFor_cons, hval, hif]
        congr 1
        ring
      · have hD : mgetD (mset m r.ResourceType (mgetD m r.ResourceType 0 + r.InstanceHours)) t 0
            = mgetD m t 0 := by
          simp [mgetD, mget_mset, ht]
        have hcond : (t ∈ mkeys (mset m r.ResourceType (mgetD m r.ResourceType 0 + r.InstanceHours))
            ∨ t ∈ rs.map (fun r => r.ResourceType))
            ↔ (t ∈ mkeys m ∨ t ∈ (r :: rs).map (fun r => r.ResourceType)) := by
          rw [mem_mkeys_mset]
          constructor
          · rintro ((h | h) | h)
            · exact absurd h ht
            · exact Or.inl h
            · right
              simp only [List.map_cons, List.mem_cons]
              exact Or.inr h
          · rintro (h | h)
            · exact Or.inl (Or.inr h)
            · simp only [List.map_cons, List.mem_cons] at h
              rcases h with h | h
              · exact absurd h ht
              · exact Or.inr h
        by_cases hc : t ∈ mkeys m ∨ t ∈ (r :: rs).map (fun r => r.ResourceType)
        · rw [if_pos (hcond.mpr hc), if_pos hc, hD, totalHoursFor_cons,
            if_neg (fun h => ht h.symm), zero_add]
        · rw [if_neg (fun h => hc (hcond.mp h)), if_neg hc]

theorem mget_sumByType (records : List BillingRecord) (t : String) :
    mget (sumByType records) t =
      if t ∈ records.map (fun r => r.ResourceType) then some (totalHoursFor records t)
      else none := by
  have h := mget_sumFold records [] t
  simpa [sumByType, mkeys, mgetD, mget] using h

/-! ## Claim C1: synthetic unit conversion -/

/-- C1: for every asset type, average and rule table,
`ConvertToSyntheticUnits` equals `round(average × unitsPerInstance(type))`
with round-half-away-from-zero when the table has a rule for the type, and 0
when it has none; in particular round(4.76 × 5) = 24, round(3.00 × 5) = 15
and round(2.10 × 2) = 4. -/
theorem convert_rounds_half_away :
    (∀ (t : String) (av : ℚ) (R : SyntheticUnitsConfig) (rule : SyntheticUnitRule),
        mget R.Rules t = some rule →
        ConvertToSyntheticUnits t av R = roundHalfAway (av * (rule.UnitsPerInstance : ℚ))) ∧
    (∀ (t : String) (av : ℚ) (R : SyntheticUnitsConfig),
        mget R.Rules t = none → ConvertToSyntheticUnits t av R = 0) ∧
    roundHalfAway (476/100 * 5) = 24 ∧ roundHalfAway (3 * 5) = 15 ∧
    roundHalfAway (21/10 * 2) = 4 := by
  refine ⟨?_, ?_, by norm_num [roundHalfAway], by norm_num [roundHalfAway],
    by norm_num [roundHalfAway]⟩
  · intro t av R rule h
    unfold ConvertToSyntheticUnits
    rw [h]
  · intro t av R h
    unfold ConvertToSyntheticUnits
    rw [h]

/-- Witness for C1 at a concrete table: a VM rule of 5 units scores the
average 4.76 as 24, and a type with no rule scores 0. -/
theorem convert_rounds_half_away_witness :
    ConvertToSyntheticUnits "VM" (476/100) ⟨[("VM", ⟨5⟩)]⟩ = 24 ∧
    ConvertToSyntheticUnits "Other" 3 ⟨[("VM", ⟨5⟩)]⟩ = 0 := by
  constructor
  · rw [convert_rounds_half_away.1 "VM" (476/100) ⟨[("VM", ⟨5⟩)]⟩ ⟨5⟩ (by decide)]
    norm_num [roundHalfAway]
  · exact convert_rounds_half_away.2.1 "Other" 3 ⟨[("VM", ⟨5⟩)]⟩ (by decide)

/-! ## Claim C2: normalization content -/

/-- The content of the normalized map, closed form. -/
theorem mget_normalize (records : List BillingRecord) (period : String) (t : String) :
    mget (NormalizeToInstanceHours records period) t =
      if t ∈ records.map (fun r => r.ResourceType) then
        some (totalHoursFor records t / ((getDaysInPeriod period : ℚ) * 24))
      else none := by
  simp only [NormalizeToInstanceHours]
  rw [mget_mapValues, mget_sumByType]
  by_cases h : t ∈ records.map (fun r => r.ResourceType) <;> simp [h]

/-- C2: `NormalizeToInstanceHours` maps every resource type occurring in the
records to the sum of its records' instance-hours divided by
days-in-period × 24, and its key set is exactly the set of occurring
resource types. -/
theorem normalize_maps_types (records : List BillingRecord) (period : String) :
    (∀ t : String,
      mget (NormalizeToInstanceHours records period) t =
        if t ∈ records.map (fun r => r.ResourceType) then
          some (totalHoursFor records t / ((getDaysInPeriod period : ℚ) * 24))
        else none) ∧
    (∀ t : String,
      t ∈ mkeys (NormalizeToInstanceHours records period) ↔
        t ∈ records.map (fun r => r.ResourceType)) := by
  refine ⟨mget_normalize records period, fun t => ?_⟩
  rw [mem_mkeys_iff_mget, mget_normalize records period t]
  by_cases h : t ∈ records.map (fun r => r.ResourceType) <;> simp [h]

/-! ## Claim C3: days in period -/

/-- The month slice `period[5:7]` only depends on the characters after a
four-character year: `getDaysInPeriod` on `y ++ "-ab"` reduces to the fixed
month table read at `"ab"`. -/
theorem getDaysInPeriod_concat (y : String) (hy : y.length = 4) (a b : Char) :
    getDaysInPeriod (y ++ String.mk ['-', a, b]) =
      (let month := String.mk [a, b]
       if month = "01" ∨ month = "03" ∨ month = "05" ∨ month = "07" ∨
          month = "08" ∨ month = "10" ∨ month = "12" then 31
       else if month = "04" ∨ month = "06" ∨ month = "09" ∨ month = "11" then 30
       else if month = "02" then 28
       else 30) := by
  have h7 : (y ++ String.mk ['-', a, b]).length = 7 := by
    rw [String.length_append, hy]
    rfl
  have h4 : y.data.length = 4 := hy
  have hdrop : (y ++ String.mk ['-', a, b]).data.drop 5 = [a, b] := by
    rw [String.data_append]
    have h := @List.drop_append _ y.data ['-', a, b] 1
    rw [h4] at h
    exact h
  unfold getDaysInPeriod
  rw [if_neg (by rw [h7]; omega), hdrop]
  rfl

/-- C3: for a four-character year, `getDaysInPeriod "YYYY-MM"` is the
standard Gregorian month length for every month except February, February
always yields 28, and any period string shorter than seven characters
yields 30. -/
theorem daysInPeriod_gregorian :
    (∀ y : String, y.length = 4 →
      getDaysInPeriod (y ++ "-01") = 31 ∧ getDaysInPeriod (y ++ "-02") = 28 ∧
      getDaysInPeriod (y ++ "-03") = 31 ∧ getDaysInPeriod (y ++ "-04") = 30 ∧
      getDaysInPeriod (y ++ "-05") = 31 ∧ getDaysInPeriod (y ++ "-06") = 30 ∧
      getDaysInPeriod (y ++ "-07") = 31 ∧ getDaysInPeriod (y ++ "-08") = 31 ∧
      getDaysInPeriod (y ++ "-09") = 30 ∧ getDaysInPeriod (y ++ "-10") = 31 ∧
      getDaysInPeriod (y ++ "-11") = 30 ∧ getDaysInPeriod (y ++ "-12") = 31) ∧
    (∀ s : String, s.length < 7 → getDaysInPeriod s = 30) := by
  constructor
  · intro y hy
    exact ⟨(getDaysInPeriod_concat y hy '0' '1').trans (by decide),
      (getDaysInPeriod_concat y hy '0' '2').trans (by decide),
      (getDaysInPeriod_concat y hy '0' '3').trans (by decide),
      (getDaysInPeriod_concat y hy '0' '4').trans (by decide),
      (getDaysInPeriod_concat y hy '0' '5').trans (by decide),
      (getDaysInPeriod_concat y hy '0' '6').trans (by decide),
      (getDaysInPeriod_concat y hy '0' '7').trans (by decide),
      (getDaysInPeriod_concat y hy '0' '8').trans (by decide),
      (getDaysInPeriod_concat y hy '0' '9').trans (by decide),
      (getDaysInPeriod_concat y hy '1' '0').trans (by decide),
      (getDaysInPeriod_concat y hy '1' '1').trans (by decide),
      (getDaysInPeriod_concat y hy '1' '2').trans (by decide)⟩
  · intro s hs
    unfold getDaysInPeriod
    rw [if_pos hs]

/-- Witness for C3 at the year 2024 and a malformed short period. -/
theorem daysInPeriod_gregorian_witness :
    getDaysInPeriod ("2024" ++ "-02") = 28 ∧ getDaysInPeriod "24-02" = 30 :=
  ⟨(daysInPeriod_gregorian.1 "2024" rfl).2.1,
   daysInPeriod_gregorian.2 "24-02" (by decide)⟩

/-! ## Claim C4: row skipping against the CSV field-count check -/

theorem parseRowsAWS_eq_filterMap (l : List (List String)) :
    parseRowsAWS l = (l.filter (fun row => 6 ≤ row.length)).map recordOfAWSRow := by
  induction l with
  | nil => rfl
  | cons row rest ih =>
      by_cases h : row.length < 6
      · have h6 : ¬ (6 ≤ row.length) := by omega
        simp [parseRowsAWS, h, List.filter_cons, h6, ih]
      · have h6 : 6 ≤ row.length := by omega
        simp [parseRowsAWS, h, List.filter_cons, h6, ih]

/-- C4 as stated is false: under the default `csv.Reader` field-count
check, a data row with fewer fields than the six-field header makes the
whole-file parse fail with an error instead of being skipped. -/
theorem parseAWS_short_row_counterexample :
    parseAWSBillingFile
      [["service", "resourceType", "resourceId", "instanceHours", "period", "region"],
       ["EC2", "VM", "i-1"]] = none := by
  decide

/-- C4 amended: parsing a provider file succeeds exactly when every data
row has the same field count as the header; a data row with fewer than six
fields under a header of six or more fields fails the whole file with an
error rather than being skipped.  When the parse succeeds, the row loop
keeps exactly the rows with at least six fields (so rows are skipped
non-fatally only when the header itself is shorter than six fields). -/
theorem parseAWS_fieldcount_amended :
    (∀ (header : List String) (rest : List (List String)),
      parseAWSBillingFile (header :: rest) =
        if rest.all (fun row => row.length == header.length) then
          some ((rest.filter (fun row => 6 ≤ row.length)).map recordOfAWSRow)
        else none) ∧
    (∀ (header : List String) (rest : List (List String)), ∀ row ∈ rest,
      row.length < 6 → 6 ≤ header.length →
      parseAWSBillingFile (header :: rest) = none) := by
  have hmain : ∀ (header : List String) (rest : List (List String)),
      parseAWSBillingFile (header :: rest) =
        if rest.all (fun row => row.length == header.length) then
          some ((rest.filter (fun row => 6 ≤ row.length)).map recordOfAWSRow)
        else none := by
    intro header rest
    have hc : csvReadAll (header :: rest) =
        if rest.all (fun row => row.length == header.length) then some (header :: rest)
        else none := rfl
    unfold parseAWSBillingFile
    rw [hc]
    by_cases h : rest.all (fun row => row.length == header.length) = true
    · rw [if_pos h, if_pos h]
      show some (parseRowsAWS ((header :: rest).drop 1)) = _
      rw [List.drop_one, List.tail_cons, parseRowsAWS_eq_filterMap]
    · rw [if_neg h, if_neg h]
  refine ⟨hmain, ?_⟩
  intro header rest row hrow hshort hheader
  rw [hmain header rest, if_neg]
  intro hall
  have hlen : row.length = header.length := by
    simpa using List.all_eq_true.mp hall row hrow
  omega

/-- Witness for the amended C4: a file of uniform six-field rows parses to
its one record, and the same file with the data row truncated to three
fields fails whole. -/
theorem parseAWS_fieldcount_amended_witness :
    parseAWSBillingFile
      [["service", "resourceType", "resourceId", "instanceHours", "period", "region"],
       ["EC2", "VM", "i-1", "720", "2024-01", "us-east-1"]] =
      some [recordOfAWSRow ["EC2", "VM", "i-1", "720", "2024-01", "us-east-1"]] ∧
    parseAWSBillingFile
      [["service", "resourceType", "resourceId", "instanceHours", "period", "region"],
       ["EC2", "VM", "i-1"]] = none := by
  constructor
  · rw [parseAWS_fieldcount_amended.1
      ["service", "resourceType", "resourceId", "instanceHours", "period", "region"]
      [["EC2", "VM", "i-1", "720", "2024-01", "us-east-1"]]]
    decide
  · exact parseAWS_fieldcount_amended.2
      ["service", "resourceType", "resourceId", "instanceHours", "period", "region"]
      [["EC2", "VM", "i-1"]] ["EC2", "VM", "i-1"] (by decide) (by decide) (by decide)

/-! ## Claim C8: the parser does not establish non-negative instance-hours -/

/-- C8 as stated is false: a data row whose instance-hours field is the
parseable string `"-5"` yields a `BillingRecord` with negative
`InstanceHours`; the parser propagates whatever float the field parses to. -/
theorem parser_nonneg_counterexample :
    ¬ (∀ r ∈ parseAWSBilling
        [["service", "resourceType", "resourceId", "instanceHours", "period", "region"],
         ["EC2", "VM", "i-1", "-5", "2024-01", "us-east-1"]],
        0 ≤ r.InstanceHours) := by
  decide

/-- C8 amended: every parsed record's `InstanceHours` is the float value of
the row's fourth field with 0 substituted when the field fails to parse —
so records are non-negative exactly when every kept row's field parses to a
non-negative value or fails to parse; the parser itself adds no sign check. -/
theorem parser_hours_amended :
    (∀ rows : List (List String),
      (∀ row ∈ rows.drop 1, 0 ≤ parseFloatOr0 (row.getD 3 "")) →
      ∀ r ∈ parseAWSBilling rows, 0 ≤ r.InstanceHours) ∧
    (∀ row : List String, parseGoFloat (row.getD 3 "") = none →
      (recordOfAWSRow row).InstanceHours = 0) := by
  constructor
  · intro rows h r hr
    unfold parseAWSBilling at hr
    rw [parseRowsAWS_eq_filterMap] at hr
    obtain ⟨row, hrow, rfl⟩ := List.mem_map.mp hr
    exact h row (List.mem_of_mem_filter hrow)
  · intro row h
    show (parseGoFloat (row.getD 3 "")).getD 0 = 0
    rw [h]
    rfl

/-- Witness for the amended C8: a parseable non-negative field stays
non-negative, an unparseable field becomes 0. -/
theorem parser_hours_amended_witness :
    0 ≤ (recordOfAWSRow ["EC2", "VM", "i-1", "3", "2024-01", "us-east-1"]).InstanceHours ∧
    (recordOfAWSRow ["EC2", "VM", "i-1", "x", "2024-01", "us-east-1"]).InstanceHours = 0 := by
  constructor
  · exact parser_hours_amended.1
      [["h"], ["EC2", "VM", "i-1", "3", "2024-01", "us-east-1"]] (by decide)
      (recordOfAWSRow ["EC2", "VM", "i-1", "3", "2024-01", "us-east-1"]) (by decide)
  · exact parser_hours_amended.2 ["EC2", "VM", "i-1", "x", "2024-01", "us-east-1"] (by decide)

/-! ## Lemmas about key merging and grouping -/

theorem mem_foldl_addKeyIfNew (l : List String) :
    ∀ (acc : List String) (t : String),
      t ∈ l.foldl addKeyIfNew acc ↔ t ∈ acc ∨ t ∈ l := by
  induction l with
  | nil => simp
  | cons k rest ih =>
      intro acc t
      rw [List.foldl_cons, ih]
      unfold addKeyIfNew
      by_cases hk : k ∈ acc
      · rw [if_pos hk]
        simp only [List.mem_cons]
        constructor
        · rintro (h | h)
          · exact Or.inl h
          · exact Or.inr (Or.inr h)
        · rintro (h | h | h)
          · exact Or.inl h
          · exact Or.inl (h ▸ hk)
          · exact Or.inr h
      · rw [if_neg hk]
        simp only [List.mem_append, List.mem_singleton, List.mem_cons]
        tauto

theorem nodup_foldl_addKeyIfNew (l : List String) :
    ∀ acc : List String, acc.Nodup → (l.foldl addKeyIfNew acc).Nodup := by
  induction l with
  | nil => intro acc h; exact h
  | cons k rest ih =>
      intro acc h
      rw [List.foldl_cons]
      apply ih
      unfold addKeyIfNew
      by_cases hk : k ∈ acc
      · rw [if_pos hk]; exact h
      · rw [if_neg hk]
        simp [List.nodup_append, h, hk]

theorem mem_mergeKeysStr (m1 : StrMap ℤ) (m2 : StrMap ℚ) (t : String) :
    t ∈ mergeKeysStr m1 m2 ↔ t ∈ mkeys m1 ∨ t ∈ mkeys m2 := by
  unfold mergeKeysStr
  rw [mem_foldl_addKeyIfNew]
  simp

theorem nodup_mergeKeysStr (m1 : StrMap ℤ) (m2 : StrMap ℚ) :
    (mergeKeysStr m1 m2).Nodup :=
  nodup_foldl_addKeyIfNew _ [] List.nodup_nil

theorem mem_mkeys_foldl_mset {V α : Type} (key : α → String) (f : StrMap V → α → V)
    (l : List α) :
    ∀ (m : StrMap V) (t : String),
      t ∈ mkeys (l.foldl (fun m x => mset m (key x) (f m x)) m) ↔
        t ∈ mkeys m ∨ t ∈ l.map key := by
  induction l with
  | nil => simp
  | cons x xs ih =>
      intro m t
      rw [List.foldl_cons, ih, mem_mkeys_mset]
      simp only [List.map_cons, List.mem_cons]
      tauto

theorem mem_mkeys_countByType (assets : List Asset) (t : String) :
    t ∈ mkeys (countByType assets) ↔ t ∈ assets.map (fun a => a.«Type») := by
  have h := mem_mkeys_foldl_mset (fun a : Asset => a.«Type»)
    (fun (m : StrMap ℤ) (a : Asset) => mgetD m a.«Type» 0 + 1) assets [] t
  simpa [countByType, mkeys] using h

/-- The asset-type column of the enriched output is the merged key list. -/
theorem enrich_types_eq_mergeKeys (assets : List Asset) (avg : StrMap ℚ)
    (rules : SyntheticUnitsConfig) :
    (EnrichAssets assets avg rules).map (fun e => e.AssetType) =
      mergeKeysStr (countByType assets) avg := by
  simp only [EnrichAssets]
  rw [List.map_map]
  have h : ((fun e : EnrichedAsset => e.AssetType) ∘
      enrichRow (countByType assets) avg rules) = id := by
    funext t
    rfl
  rw [h, List.map_id]

/-! ## Claim C5: each merged type exactly once -/

/-- C5: the enriched output carries one row per resource type appearing in
the inventory grouping or in the average map — every such type appears, no
type appears twice. -/
theorem enrich_exactly_once (assets : List Asset) (avg : StrMap ℚ)
    (rules : SyntheticUnitsConfig) :
    ((EnrichAssets assets avg rules).map (fun e => e.AssetType)).Nodup ∧
    (∀ t : String,
      t ∈ (EnrichAssets assets avg rules).map (fun e => e.AssetType) ↔
        (t ∈ assets.map (fun a => a.«Type») ∨ t ∈ mkeys avg)) := by
  rw [enrich_types_eq_mergeKeys]
  refine ⟨nodup_mergeKeysStr _ _, fun t => ?_⟩
  rw [mem_mergeKeysStr, mem_mkeys_countByType]

/-- Witness for C5: a type present only in the average map appears in the
output of a run with empty inventory. -/
theorem enrich_exactly_once_witness :
    "VM" ∈ (EnrichAssets [] [("VM", (1 : ℚ))] ⟨[]⟩).map (fun e => e.AssetType) :=
  ((enrich_exactly_once [] [("VM", (1 : ℚ))] ⟨[]⟩).2 "VM").mpr (Or.inr (by decide))

/-! ## Claim C6: the ephemeral flag -/

/-- C6: every enriched row's ephemeral flag is exactly
`average > 0 AND inventory count == 0`, read through Go's zero-defaulting
map access; with an empty inventory every row of positive average is
flagged. -/
theorem enrich_ephemeral_flag (assets : List Asset) (avg : StrMap ℚ)
    (rules : SyntheticUnitsConfig) :
    (∀ e ∈ EnrichAssets assets avg rules,
      (e.HasEphemeralUsage = true ↔
        (0 < mgetD avg e.AssetType 0 ∧ mgetD (countByType assets) e.AssetType 0 = 0))) ∧
    (assets = [] → ∀ e ∈ EnrichAssets assets avg rules,
      0 < e.AverageInstancesPerHr → e.HasEphemeralUsage = true) := by
  have hflag : ∀ e ∈ EnrichAssets assets avg rules,
      (e.HasEphemeralUsage = true ↔
        (0 < mgetD avg e.AssetType 0 ∧ mgetD (countByType assets) e.AssetType 0 = 0)) := by
    intro e he
    simp only [EnrichAssets, List.mem_map] at he
    obtain ⟨t, _, rfl⟩ := he
    simp [enrichRow, Bool.and_eq_true, decide_eq_true_iff]
  refine ⟨hflag, fun hassets e he havg => ?_⟩
  rw [hflag e he]
  subst hassets
  refine ⟨?_, rfl⟩
  have : e.AverageInstancesPerHr = mgetD avg e.AssetType 0 := by
    simp only [EnrichAssets, List.mem_map] at he
    obtain ⟨t, _, rfl⟩ := he
    rfl
  rw [← this]
  exact havg

/-- Witness for C6: with empty inventory, the one row of a positive-average
type is flagged ephemeral. -/
theorem enrich_ephemeral_flag_witness :
    ({ AssetType := "VM", CurrentlyDeployed := 0, AverageInstancesPerHr := 1,
       HasEphemeralUsage := true, CalculatedUnits := 0 } : EnrichedAsset).HasEphemeralUsage
      = true :=
  (enrich_ephemeral_flag [] [("VM", (1 : ℚ))] ⟨[]⟩).2 rfl _ (by decide) (by norm_num)

/-! ## Claim C7: additivity of normalization -/

theorem totalHoursFor_of_uniform (rs : List BillingRecord) (t : String)
    (htype : ∀ r ∈ rs, r.ResourceType = t) :
    totalHoursFor rs t = (rs.map (fun r => r.InstanceHours)).sum := by
  unfold totalHoursFor
  rw [List.filter_eq_self.mpr]
  intro r hr
  simpa using htype r hr

/-- C7: normalizing a non-empty list of records all of one type gives that
type the same average as normalizing the single record carrying the sum of
their instance-hours. -/
theorem normalize_additive (t period : String) (rs : List BillingRecord)
    (hne : rs ≠ []) (htype : ∀ r ∈ rs, r.ResourceType = t) :
    mget (NormalizeToInstanceHours rs period) t =
      mget (NormalizeToInstanceHours
        [singleRecordFor t period ((rs.map (fun r => r.InstanceHours)).sum)] period) t := by
  rw [mget_normalize, mget_normalize]
  have hmem : t ∈ rs.map (fun r => r.ResourceType) := by
    obtain ⟨r, hr⟩ := List.exists_mem_of_ne_nil rs hne
    exact List.mem_map.mpr ⟨r, hr, htype r hr⟩
  have hmem' : t ∈ [singleRecordFor t period ((rs.map (fun r => r.InstanceHours)).sum)].map
      (fun r => r.ResourceType) := by
    simp [singleRecordFor]
  rw [if_pos hmem, if_pos hmem', totalHoursFor_of_uniform rs t htype]
  congr 1
  unfold totalHoursFor singleRecordFor
  simp

/-- Witness for C7: two VM records of 720 and 24 instance-hours normalize
like one VM record of 744 instance-hours. -/
theorem normalize_additive_witness :
    mget (NormalizeToInstanceHours
      [singleRecordFor "VM" "2024-01" 720, singleRecordFor "VM" "2024-01" 24]
      "2024-01") "VM" =
    mget (NormalizeToInstanceHours
      [singleRecordFor "VM" "2024-01" ([(720 : ℚ), 24].sum)] "2024-01") "VM" := by
  have h := normalize_additive "VM" "2024-01"
    [singleRecordFor "VM" "2024-01" 720, singleRecordFor "VM" "2024-01" 24]
    (by decide) (by decide)
  simpa [singleRecordFor] using h

/-! ## Claim C9: determinism of the report rows

Go randomizes map iteration order, so the `for k := range m` loops in
`mergeKeysStr` may visit the same map's keys in a different order on two
runs with identical inputs.  In the model, the two runs see two
permutations of the same `StrMap`. -/

theorem nodupKeys_perm {V : Type} {m m' : StrMap V} (h : m.Perm m')
    (hnd : NodupKeys m) : NodupKeys m' :=
  (h.map Prod.fst).nodup_iff.mp hnd

theorem mget_perm {V : Type} {m m' : StrMap V} (h : m.Perm m') :
    NodupKeys m → ∀ t : String, mget m t = mget m' t := by
  induction h with
  | nil => intro _ t; rfl
  | cons x hsub ih =>
      intro hnd t
      obtain ⟨k, v⟩ := x
      have htail : NodupKeys _ := (List.nodup_cons.mp hnd).2
      by_cases ht : t = k <;> simp [mget, ht, ih htail t]
  | swap x y l =>
      intro hnd t
      obtain ⟨k₁, v₁⟩ := x
      obtain ⟨k₂, v₂⟩ := y
      have hne : k₂ ≠ k₁ := by
        have := (List.nodup_cons.mp hnd).1
        simp only [mkeys, List.map_cons, List.mem_cons] at this ⊢
        intro hk
        exact this (Or.inl hk)
      by_cases h1 : t = k₁ <;> by_cases h2 : t = k₂ <;>
        simp_all [mget]
  | trans h1 h2 ih1 ih2 =>
      intro hnd t
      rw [ih1 hnd t, ih2 (nodupKeys_perm h1 hnd) t]

theorem mergeKeysStr_perm (m1 : StrMap ℤ) {m2 m2' : StrMap ℚ}
    (h : m2.Perm m2') :
    (mergeKeysStr m1 m2).Perm (mergeKeysStr m1 m2') := by
  rw [List.perm_ext_iff_of_nodup (nodup_mergeKeysStr _ _) (nodup_mergeKeysStr _ _)]
  intro t
  rw [mem_mergeKeysStr, mem_mergeKeysStr]
  have hm : t ∈ mkeys m2 ↔ t ∈ mkeys m2' := (h.map Prod.fst).mem_iff
  tauto

theorem enrichAssets_perm (assets : List Asset) {avg avg' : StrMap ℚ}
    (rules : SyntheticUnitsConfig) (h : avg.Perm avg') (hnd : NodupKeys avg) :
    (EnrichAssets assets avg rules).Perm (EnrichAssets assets avg' rules) := by
  simp only [EnrichAssets]
  have hrow : ∀ t : String,
      enrichRow (countByType assets) avg rules t =
        enrichRow (countByType assets) avg' rules t := by
    intro t
    have hv : mgetD avg t 0 = mgetD avg' t 0 := by
      unfold mgetD
      rw [mget_perm h hnd t]
    simp only [enrichRow, hv]
  have hmap : (mergeKeysStr (countByType assets) avg).map
      (enrichRow (countByType assets) avg rules) =
      (mergeKeysStr (countByType assets) avg).map
      (enrichRow (countByType assets) avg' rules) :=
    List.map_congr_left (fun t _ => hrow t)
  rw [hmap]
  exact (mergeKeysStr_perm (countByType assets) h).map _

/-- C9 as stated is false: the enrich-and-aggregate stage consumes its
average map through Go map iteration, whose order is not fixed — two valid
iteration orders of the same two-key map (here: the two permutations of one
`StrMap` content) produce the same rows in different order, so the row
sequence is not a function of the inputs alone. -/
theorem pipeline_order_counterexample :
    ([("VM", (1 : ℚ)), ("Database", (1 : ℚ))] : StrMap ℚ).Perm
      [("Database", (1 : ℚ)), ("VM", (1 : ℚ))] ∧
    AggregateForOutput (EnrichAssets [] [("VM", (1 : ℚ)), ("Database", (1 : ℚ))] ⟨[]⟩) ≠
      AggregateForOutput (EnrichAssets [] [("Database", (1 : ℚ)), ("VM", (1 : ℚ))] ⟨[]⟩) := by
  constructor
  · exact List.Perm.swap _ _ _
  · decide

/-- C9 amended: with fixed inputs the pipeline's aggregated rows are
deterministic as a multiset — two runs differing only in the iteration
order of the (well-formed) average map produce permutations of the same
rows; row order itself is not guaranteed. -/
theorem pipeline_rows_perm (assets : List Asset) (avg avg' : StrMap ℚ)
    (rules : SyntheticUnitsConfig) (h : avg.Perm avg') (hnd : NodupKeys avg) :
    (AggregateForOutput (EnrichAssets assets avg rules)).Perm
      (AggregateForOutput (EnrichAssets assets avg' rules)) :=
  (enrichAssets_perm assets rules h hnd).map _

/-- Witness for the amended C9 at the two-key map of the counterexample. -/
theorem pipeline_rows_perm_witness :
    (AggregateForOutput (EnrichAssets [] [("VM", (1 : ℚ)), ("Database", (1 : ℚ))] ⟨[]⟩)).Perm
      (AggregateForOutput (EnrichAssets [] [("Database", (1 : ℚ)), ("VM", (1 : ℚ))] ⟨[]⟩)) :=
  pipeline_rows_perm [] [("VM", (1 : ℚ)), ("Database", (1 : ℚ))]
    [("Database", (1 : ℚ)), ("VM", (1 : ℚ))] ⟨[]⟩ (List.Perm.swap _ _ _) (by decide)

/-! ## Claim C10: cell types in the Excel writer -/

theorem head_cellName (col : Char) (row : ℕ) :
    (cellName col row).data.head? = some col := by
  unfold cellName
  rw [String.data_append]
  rfl

theorem mem_dataCellsFrom_of_mem_row (l : List AggregatedOutput) :
    ∀ (row i : ℕ) (h : i < l.length) (x : String × CellVal),
      x ∈ dataRowCells (row + i) (l.get ⟨i, h⟩) → x ∈ dataCellsFrom row l := by
  induction l with
  | nil =>
      intro row i h
      simp at h
  | cons a rest ih =>
      intro row i h x hx
      cases i with
      | zero =>
          apply List.mem_append_left
          simpa using hx
      | succ n =>
          apply List.mem_append_right
          have hn : n < rest.length := by
            simp only [List.length_cons] at h
            omega
          have hx' : x ∈ dataRowCells ((row + 1) + n) (rest.get ⟨n, hn⟩) := by
            have harith : row + (n + 1) = (row + 1) + n := by omega
            rw [← harith]
            simpa using hx
          exact ih (row + 1) n hn x hx'

theorem colD_str_dataCellsFrom (l : List AggregatedOutput) :
    ∀ (row : ℕ) (x : String × CellVal), x ∈ dataCellsFrom row l →
      x.1.data.head? = some 'D' → ∃ s, x.2 = CellVal.str s := by
  induction l with
  | nil => intro row x hx; simp [dataCellsFrom] at hx
  | cons a rest ih =>
      intro row x hx hD
      rcases List.mem_append.mp hx with hx | hx
      · simp only [dataRowCells, List.mem_cons, List.mem_singleton] at hx
        rcases hx with rfl | rfl | rfl | rfl | (rfl | hx)
        · rw [head_cellName] at hD
          cases hD
        · rw [head_cellName] at hD
          cases hD
        · rw [head_cellName] at hD
          cases hD
        · exact ⟨_, rfl⟩
        · rw [head_cellName] at hD
          cases hD
        · cases hx
      · exact ih (row + 1) x hx hD

/-- C10: for a non-empty row list the writer records every Avg Instances/Hr
data cell (column D) as a text string formatted to two decimals, the
Current Count, Ephemeral Count and Synthetic Units cells (columns B, C, E)
as numeric values, and the totals-row D formula sums `D2:D(len+1)` — a range
of text cells, since every value written in column D is a string. -/
theorem writeExcel_colD_text (assets : List AggregatedOutput) (hne : assets ≠ []) :
    (∀ (i : ℕ) (h : i < assets.length),
      (cellName 'D' (2 + i),
        CellVal.str (fmtTwoDec (assets.get ⟨i, h⟩).AvgInstancesPerHour)) ∈
          WriteExcelCells assets ∧
      (cellName 'B' (2 + i), CellVal.int (assets.get ⟨i, h⟩).CurrentCount) ∈
          WriteExcelCells assets ∧
      (cellName 'C' (2 + i), CellVal.int (assets.get ⟨i, h⟩).EphemeralCount) ∈
          WriteExcelCells assets ∧
      (cellName 'E' (2 + i), CellVal.int (assets.get ⟨i, h⟩).SyntheticUnits) ∈
          WriteExcelCells assets) ∧
    (∀ x ∈ WriteExcelCells assets,
      x.1.data.head? = some 'D' → ∃ s, x.2 = CellVal.str s) ∧
    (cellName 'D' (assets.length + 2), sumFormula 'D' (assets.length + 1)) ∈
      WriteExcelFormulas assets := by
  have hdata : ∀ x ∈ dataCellsFrom 2 assets, x ∈ WriteExcelCells assets := by
    intro x hx
    unfold WriteExcelCells
    exact List.mem_append_left _ (List.mem_append_right _ hx)
  refine ⟨fun i h => ?_, ?_, ?_⟩
  · refine ⟨?_, ?_, ?_, ?_⟩ <;>
      · apply hdata
        apply mem_dataCellsFrom_of_mem_row assets 2 i h
        simp [dataRowCells]
  · intro x hx hD
    unfold WriteExcelCells at hx
    rcases List.mem_append.mp hx with hx | hx
    · rcases List.mem_append.mp hx with hx | hx
      · simp only [headerCells, List.mem_cons, List.mem_singleton] at hx
        rcases hx with rfl | rfl | rfl | rfl | (rfl | hx)
        · rw [head_cellName] at hD
          cases hD
        · rw [head_cellName] at hD
          cases hD
        · rw [head_cellName] at hD
          cases hD
        · exact ⟨_, rfl⟩
        · rw [head_cellName] at hD
          cases hD
        · cases hx
      · exact colD_str_dataCellsFrom assets 2 x hx hD
    · have hpos : 0 < assets.length := List.length_pos.mpr hne
      rw [if_pos hpos] at hx
      simp only [List.mem_singleton] at hx
      subst hx
      rw [head_cellName] at hD
      cases hD
  · have hpos : 0 < assets.length := List.length_pos.mpr hne
    unfold WriteExcelFormulas
    rw [if_pos hpos]
    simp

/-- Witness for C10 on a single-row report. -/
theorem writeExcel_colD_text_witness :
    (cellName 'D' 2, CellVal.str (fmtTwoDec (476/100))) ∈ WriteExcelCells [sampleRow] ∧
    (cellName 'D' 3, sumFormula 'D' 2) ∈ WriteExcelFormulas [sampleRow] := by
  have h := writeExcel_colD_text [sampleRow] (List.cons_ne_nil _ _)
  exact ⟨(h.1 0 (by simp)).1, h.2.2⟩

end CloudCostCala
